import Mathlib

/-!
Shallow embedding of the fallback heuristic extraction engine of
`resume_parser.py`: the functions `extract_basic_info`, `extract_skills`,
`extract_experience`, `extract_projects`, `extract_education`,
`extract_links_from_text` and `get_github_profile`.

Python strings are modelled as `List Char` internally (`String` at the API
boundary).  The regular expressions the source uses are translated into
explicit character-level scanners that reproduce the `re` module's
leftmost-match, greedy and backtracking behaviour on the concrete patterns
appearing in the source.  The ASCII fragments of Python's character classes
(`\s`, `\w`, `\d`) and of `str.lower`, `str.isalpha`, `str.isupper` are
used; they agree with Python on the inputs considered here.
-/

namespace ResumeParser

/-- Python `\s` (ASCII part): space, tab, newline, vertical tab, form feed,
carriage return. -/
def pyIsSpace (c : Char) : Bool :=
  c == ' ' || c == '\t' || c == '\n' || c == '\x0b' || c == '\x0c' || c == '\x0d'

/-- Python `\w` (ASCII part): letters, digits, underscore. -/
def isWordChar (c : Char) : Bool :=
  c.isAlpha || c.isDigit || c == '_'

/-- Wordness of an optional character; `none` (string edge) counts as
non-word, so that `\b` holds at the edges exactly as in `re`. -/
def wOpt (o : Option Char) : Bool :=
  o.elim false isWordChar

/-- Lower-case a character list, as Python `str.lower` does on ASCII. -/
def lowerStr (l : List Char) : List Char :=
  l.map Char.toLower

/-- Case-sensitive "starts with" on character lists. -/
def leads : List Char → List Char → Bool
  | [], _ => true
  | _ :: _, [] => false
  | k :: ks, c :: cs => k == c && leads ks cs

/-- Case-insensitive "starts with" on character lists. -/
def ciLeads : List Char → List Char → Bool
  | [], _ => true
  | _ :: _, [] => false
  | k :: ks, c :: cs => k.toLower == c.toLower && ciLeads ks cs

/-- Case-sensitive substring containment, Python `needle in hay`. -/
def hasSub (n : List Char) : List Char → Bool
  | [] => n.isEmpty
  | c :: cs => leads n (c :: cs) || hasSub n cs

/-- Case-insensitive substring containment, used for `re.search` with
`re.IGNORECASE` on a plain alternation of literals. -/
def ciHasSub (n : List Char) : List Char → Bool
  | [] => n.isEmpty
  | c :: cs => ciLeads n (c :: cs) || ciHasSub n cs

/-- Python `str.strip()`: drop whitespace from both ends. -/
def pyStrip (l : List Char) : List Char :=
  ((l.dropWhile pyIsSpace).reverse.dropWhile pyIsSpace).reverse

/-- Auxiliary for `splitChar`, carrying the (reversed) current piece. -/
def splitChAux (sep : Char) : List Char → List Char → List (List Char)
  | cur, [] => [cur.reverse]
  | cur, c :: cs =>
    if c == sep then cur.reverse :: splitChAux sep [] cs
    else splitChAux sep (c :: cur) cs

/-- Python `str.split(sep)` for a one-character separator. -/
def splitChar (sep : Char) (l : List Char) : List (List Char) :=
  splitChAux sep [] l

/-- Python `str.split(sep, 1)` for a one-character separator: split only at
the first occurrence; `none` when the separator does not occur. -/
def splitOnceChar (sep : Char) : List Char → Option (List Char × List Char)
  | [] => none
  | c :: cs =>
    if c == sep then some ([], cs)
    else (splitOnceChar sep cs).map (fun p => (c :: p.1, p.2))

/-- Auxiliary for `pySplitWs`, carrying the (reversed) current token. -/
def pySplitWsGo : List Char → List Char → List (List Char)
  | cur, [] => if cur.isEmpty then [] else [cur.reverse]
  | cur, c :: cs =>
    if pyIsSpace c then
      if cur.isEmpty then pySplitWsGo [] cs else cur.reverse :: pySplitWsGo [] cs
    else pySplitWsGo (c :: cur) cs

/-- Python `str.split()` (split on whitespace runs, no empty tokens). -/
def pySplitWs (l : List Char) : List (List Char) :=
  pySplitWsGo [] l

/-- Python `str.split(None, 1)` restricted to the case used by the source:
returns the first whitespace-delimited token and the remainder after the
separating whitespace run, or `none` when the string has fewer than two
tokens (`len(parts) < 2`). -/
def pySplitWsOnce (l : List Char) : Option (List Char × List Char) :=
  let s := l.dropWhile pyIsSpace
  match s with
  | [] => none
  | c :: cs =>
    let t := c :: cs.takeWhile (fun d => !pyIsSpace d)
    let r := (cs.dropWhile (fun d => !pyIsSpace d)).dropWhile pyIsSpace
    if r.isEmpty then none else some (t, r)

/-- Fuelled worker for `replaceAll`; every step consumes at least one
character, so fuel equal to the length of the list never runs out. -/
def replaceAllF (n r : List Char) : Nat → List Char → List Char
  | _, [] => []
  | 0, l => l
  | fuel + 1, c :: cs =>
    if n ≠ [] ∧ leads n (c :: cs) then
      r ++ replaceAllF n r fuel (cs.drop (n.length - 1))
    else c :: replaceAllF n r fuel cs

/-- Python `str.replace(n, r)`: replace all non-overlapping occurrences,
scanning left to right. -/
def replaceAll (n r l : List Char) : List Char :=
  replaceAllF n r l.length l

/-- Case-sensitive "ends with". -/
def endsList (suf l : List Char) : Bool :=
  leads suf.reverse l.reverse

/-- Python `str.startswith(tuple)`. -/
def startsAny (l : List Char) (ps : List (List Char)) : Bool :=
  ps.any (fun p => leads p l)

/-- Python `str.endswith(tuple)`. -/
def endsAny (l : List Char) (ps : List (List Char)) : Bool :=
  ps.any (fun p => endsList p l)

/-- Auxiliary for `normWs`, tracking whether the previous character was
part of a whitespace run already replaced by a space. -/
def normWsGo : Bool → List Char → List Char
  | _, [] => []
  | prevWs, c :: cs =>
    if pyIsSpace c then
      if prevWs then normWsGo true cs else ' ' :: normWsGo true cs
    else c :: normWsGo false cs

/-- Python `re.sub(r'\s+', ' ', s)`: collapse every whitespace run to a
single space. -/
def normWs (l : List Char) : List Char :=
  normWsGo false l

/-- Concatenation of a list of lists (insertion order preserved). -/
def catLists {α : Type} : List (List α) → List α
  | [] => []
  | l :: ls => l ++ catLists ls

/-! ### Section segmentation

Every section extractor in the source locates its section with a regex of
the shape `KEYWORD\s+(.*?)(?:TERM1|TERM2|...|\Z)` under
`re.DOTALL | re.IGNORECASE`.  Its `re` semantics on any input: the match
starts at the first (case-insensitive) occurrence of `KEYWORD` that is
followed by at least one whitespace character; the greedy `\s+` then eats
the maximal whitespace run (no terminator can start with a whitespace
character, so no backtracking ever occurs); the lazy group then captures up
to the first position where one of the terminators matches
case-insensitively, or to the end of the text. -/

/-- Head of a list is a whitespace character. -/
def headSpace : List Char → Bool
  | [] => false
  | d :: _ => pyIsSpace d

/-- Find the first case-insensitive occurrence of `kw` followed by at least
one whitespace character; return the remainder just after `kw`. -/
def findHdr (kw : List Char) : List Char → Option (List Char)
  | [] => none
  | c :: cs =>
    if ciLeads kw (c :: cs) && headSpace ((c :: cs).drop kw.length) then
      some ((c :: cs).drop kw.length)
    else findHdr kw cs

/-- Capture until the first position where some terminator matches
case-insensitively (or the end of the text). -/
def cutAtTerms (terms : List (List Char)) : List Char → List Char
  | [] => []
  | c :: cs =>
    if terms.any (fun t => ciLeads t (c :: cs)) then []
    else c :: cutAtTerms terms cs

/-- Group 1 of the section regex, or `none` when the regex does not match. -/
def findSec (kw : List Char) (terms : List (List Char)) (s : List Char) :
    Option (List Char) :=
  (findHdr kw s).map (fun rest => cutAtTerms terms (rest.dropWhile pyIsSpace))

def kwSKILLS : List Char := "SKILLS".data
def kwEXPERIENCE : List Char := "EXPERIENCE".data
def kwPROJECTS : List Char := "PROJECTS".data
def kwEDUCATION : List Char := "EDUCATION".data

def skillsTerms : List (List Char) :=
  ["PROJECTS", "CERTIFICATIONS", "ACHIEVEMENTS", "EXPERIENCE", "EDUCATION"].map String.data

def expTerms : List (List Char) :=
  ["PROJECTS", "SKILLS", "EDUCATION", "CERTIFICATIONS"].map String.data

def projTerms : List (List Char) :=
  ["RELEVANTCOURSEWORK", "RELEVANT COURSEWORK", "KEY COURSES", "EXTRACURRICULAR",
   "EDUCATION", "SKILLS", "CERTIFICATIONS", "ACHIEVEMENTS", "TECHNICAL SKILLS"].map String.data

def eduTerms : List (List Char) :=
  ["EXPERIENCE", "PROJECTS", "SKILLS", "CERTIFICATIONS"].map String.data

/-! ### Skills extractor -/

/-- One line of the SKILLS section: when it contains `|`, the leading
whitespace-delimited token is a category label to discard and the remainder
splits on `|` into trimmed non-empty items (source lines 264-272). -/
def lineSkillItems (rawLine : List Char) : List (List Char) :=
  let l := pyStrip rawLine
  if l.contains '|' then
    match pySplitWsOnce l with
    | some (_, restPart) =>
      ((splitChar '|' restPart).map pyStrip).filter (fun x => !x.isEmpty)
    | none => []
  else []

/-- Primary skills path (SKILLS section, pipe-delimited lines). -/
def primarySkills (s : List Char) : List (List Char) :=
  match findSec kwSKILLS skillsTerms s with
  | none => []
  | some body => catLists ((splitChar '\n' (pyStrip body)).map lineSkillItems)

def fallbackAlts1 : List (List Char) :=
  ["Python", "JavaScript", "Java", "C++", "SQL", "HTML", "CSS", "React", "Node.js"].map String.data

def fallbackAlts2 : List (List Char) :=
  ["MySQL", "MongoDB", "PostgreSQL", "Redis", "AWS", "Docker", "Git"].map String.data

def fallbackAlts3 : List (List Char) :=
  ["TensorFlow", "PyTorch", "Pandas", "NumPy", "OpenCV", "Matplotlib"].map String.data

def fallbackAlts4 : List (List Char) :=
  ["Power BI", "Tableau", "Excel", "Visual Studio", "VS Code"].map String.data

/-- Match one of `alts` at the head of `s` under `\b..\b` word boundaries
(with `prev` the character just before `s`), case-insensitively, trying the
alternatives in order as `re` does; returns the match length. -/
def altMatchLen (alts : List (List Char)) (prev : Option Char) (s : List Char) :
    Option Nat :=
  match s with
  | [] => none
  | c :: _ =>
    if !(wOpt prev == isWordChar c) then
      alts.findSome? (fun a =>
        if ciLeads a s &&
            !(wOpt (s.take a.length).getLast? == wOpt (s.drop a.length).head?) then
          some a.length
        else none)
    else none

/-- Fuelled worker for `scanAlts`; every step consumes at least one
character, so fuel equal to the length never runs out. -/
def scanAltsF (alts : List (List Char)) : Nat → Option Char → List Char →
    List (List Char)
  | _, _, [] => []
  | 0, _, _ => []
  | fuel + 1, prev, c :: cs =>
    match altMatchLen alts prev (c :: cs) with
    | some (n + 1) =>
      (c :: cs.take n) ::
        scanAltsF alts fuel (some ((c :: cs.take n).getLastD c)) (cs.drop n)
    | _ => scanAltsF alts fuel (some c) cs

/-- Python `re.findall` for a pattern `\b(?:lit1|lit2|...)\b` with
`re.IGNORECASE`: scan left to right, collect non-overlapping matches (the
matched text keeps the original casing). -/
def scanAlts (alts : List (List Char)) (prev : Option Char) (l : List Char) :
    List (List Char) :=
  scanAltsF alts l.length prev l

/-- Fallback skills path: the four hard-coded keyword catalogs, scanned over
the whole document in order (source lines 276-285). -/
def fallbackSkills (s : List Char) : List (List Char) :=
  scanAlts fallbackAlts1 none s ++ scanAlts fallbackAlts2 none s ++
  scanAlts fallbackAlts3 none s ++ scanAlts fallbackAlts4 none s

/-- Collected raw skills: primary path, else fallback (`if not skills:`). -/
def collectSkills (s : List Char) : List (List Char) :=
  let p := primarySkills s
  if p.isEmpty then fallbackSkills s else p

/-- Four digits at the head, followed by a word boundary. -/
def fourDigitsB : List Char → Bool
  | a :: b :: e :: d :: rest =>
    a.isDigit && b.isDigit && e.isDigit && d.isDigit &&
      (match rest with
       | [] => true
       | x :: _ => !isWordChar x)
  | _ => false

/-- Search for `\b\d{4}\b` with `prev` the character before the current
position (source line 296). -/
def hasYearFrom (prev : Option Char) : List Char → Bool
  | [] => false
  | c :: cs =>
    (!(wOpt prev == isWordChar c) && fourDigitsB (c :: cs)) || hasYearFrom (some c) cs

def monthsFull : List (List Char) :=
  ["January", "February", "March", "April", "May", "June", "July", "August",
   "September", "October", "November", "December"].map String.data

/-- Case-insensitive month-name search (source line 297). -/
def hasMonthCI (l : List Char) : Bool :=
  monthsFull.any (fun m => ciHasSub m l)

def skillStop : List (List Char) :=
  ["experience", "projects", "education", "skills", "languages", "databses",
   "libraries", "frameworks"].map String.data

/-- All per-item conditions of the cleaning filter except the duplicate
test (source lines 292-298, on the stripped item). -/
def baseOk (t : List Char) : Bool :=
  !t.isEmpty && decide (1 < t.length) && decide (t.length < 30) &&
  !hasYearFrom none t && !hasMonthCI t && !(skillStop.contains (lowerStr t))

/-- The cleaning loop (source lines 288-299): strip, filter, and append
unless an exact duplicate is already present. -/
def cleanLoop : List (List Char) → List (List Char) → List (List Char)
  | [], acc => acc
  | s :: rest, acc =>
    let t := pyStrip s
    if baseOk t ∧ t ∉ acc then cleanLoop rest (acc ++ [t])
    else cleanLoop rest acc

/-- The deduplicated cleaned skill list before the final 15-item cap. -/
def cleanedSkillsAll (text : String) : List String :=
  (cleanLoop (collectSkills text.data) []).map String.mk

/-- Embedding of `extract_skills` (source lines 253-301). -/
def extract_skills (text : String) : List String :=
  (cleanedSkillsAll text).take 15

/-! ### Experience extractor -/

structure ExperienceEntry where
  company : String
  role : String
  duration : String
  details : List String
deriving Repr, DecidableEq

/-- Trimmed non-blank lines of a section body (source line 314). -/
def nonblankLines (s : List Char) : List (List Char) :=
  ((splitChar '\n' s).map pyStrip).filter (fun l => !l.isEmpty)

def bullets3 : List (List Char) := ["•", "–", "-"].map String.data

/-- Trigger of the narrative/expertise format (source line 318). -/
def narrativeTrigger (lines : List (List Char)) : Bool :=
  (lines.take 2).any (fun l =>
    hasSub "in".data (lowerStr l) || hasSub "and".data (lowerStr l))

/-- Structured internship/job header line test (source line 322). -/
def isCompanyLine (l : List Char) : Bool :=
  (hasSub "Technologies".data l || hasSub "Tech".data l) &&
  (hasSub "Intern".data l || hasSub "Internship".data l)

/-- Company name of a narrative company line (source line 329). -/
def narCompanyOf (companyLine : List Char) : List Char :=
  pyStrip (replaceAll "Internship".data []
    (replaceAll "Summer Internship".data [] companyLine))

/-- Duration classification of a narrative company line (source 330-335). -/
def narDurationOf (companyLine : List Char) : List Char :=
  if endsList "Summer Internship".data companyLine then "Summer Internship".data
  else if endsList "Internship".data companyLine then "Internship".data
  else "Current".data

/-- Role of a narrative entry (source lines 338-342). -/
def narRoleOf (lines : List (List Char)) (idx : Nat) : List Char :=
  match lines.get? (idx + 1) with
  | some nl0 =>
    let nl := pyStrip nl0
    if !startsAny nl bullets3 && hasSub "Intern".data nl then nl
    else "Software Development Intern".data
  | none => "Software Development Intern".data

/-- Bullet accumulation with continuation merge (source lines 346-364).
The `if not line: continue` guard of the source never fires because the
input lines are trimmed and non-blank.  The empty current point plays the
role of Python's falsy `""`. -/
def collectPoints : List (List Char) → List Char → List (List Char) → List (List Char)
  | [], cur, acc => if cur.isEmpty then acc else acc ++ [cur]
  | l :: ls, cur, acc =>
    if startsAny l bullets3 then
      collectPoints ls (pyStrip (l.drop 1)) (if cur.isEmpty then acc else acc ++ [cur])
    else if !cur.isEmpty then collectPoints ls (cur ++ ' ' :: l) acc
    else if !startsAny l bullets3 && !hasSub "Intern".data l then
      collectPoints ls l acc
    else collectPoints ls cur acc

def conjEnds : List (List Char) := ["and", "or", "for", "with", "to"].map String.data

/-- Detail cleaning of the narrative branch (source lines 367-373). -/
def narCleanDetails (ds : List (List Char)) : List (List Char) :=
  (ds.map (fun d => pyStrip (normWs d))).filter
    (fun d => decide (15 < d.length) && !endsAny d conjEnds)

def expertiseKeys : List (List Char) :=
  ["ai", "data", "solution", "startup", "leadership"].map String.data

/-- Descriptive expertise lines (source lines 383-389). -/
def expertiseLinesOf (lines : List (List Char)) : List (List Char) :=
  (lines.filter (fun l => hasSub "in".data (lowerStr l) &&
      expertiseKeys.any (fun k => hasSub k (lowerStr l)))).map
    (fun l => normWs (pyStrip l))

/-- The narrative/expertise branch (source lines 319-399). -/
def narrativeBranch (lines : List (List Char)) : List ExperienceEntry :=
  (match lines.findIdx? isCompanyLine with
   | some idx =>
     let companyLine := (lines.get? idx).getD []
     [{ company := String.mk (narCompanyOf companyLine),
        role := String.mk (narRoleOf lines idx),
        duration := String.mk (narDurationOf companyLine),
        details := ((narCleanDetails
          (collectPoints (lines.drop (idx + 1)) [] [])).take 5).map String.mk }]
   | none => []) ++
  (let ex := expertiseLinesOf lines
   if ex.isEmpty then []
   else [{ company := "Professional Experience", role := "Domain Expertise",
           duration := "Current", details := ex.map String.mk }])

/-- Responsibility line of the bullet-company walk (source line 438). -/
def isDashLine (l : List Char) : Bool :=
  leads "–".data l || leads "-".data l

/-- Responsibility cleaning of the bullet-company walk (source 439-441). -/
def respClean (ds : List (List Char)) : List (List Char) :=
  (ds.map (fun l => pyStrip (l.drop 1))).filter
    (fun r => !r.isEmpty && decide (15 < r.length))

/-- Company/duration split of a bullet company line (source 414-427). -/
def bulCompanyDuration (companyLine : List Char) : List Char × List Char :=
  if hasSub "Internship".data companyLine || hasSub "Intern".data companyLine then
    if hasSub "Summer Internship".data companyLine then
      (pyStrip (replaceAll "Summer Internship".data [] companyLine),
       "Summer Internship".data)
    else if hasSub "Internship".data companyLine then
      (pyStrip (replaceAll "Internship".data [] companyLine), "Internship".data)
    else (companyLine, "Unknown Duration".data)
  else (companyLine, "Unknown Duration".data)

/-- Emit one bullet-format entry when company and role are truthy
(source lines 444-450). -/
def bulEntry (company role duration : List Char) (resps : List (List Char)) :
    List ExperienceEntry :=
  if !company.isEmpty && !role.isEmpty then
    [{ company := String.mk company, role := String.mk role,
       duration := String.mk duration,
       details := ((respClean resps).take 5).map String.mk }]
  else []

/-- The next line is taken as a role unless it starts with a bullet or an
en-dash (source line 431; a plain hyphen is not excluded there). -/
def roleLineOk (l : List Char) : Bool :=
  !leads "•".data l && !leads "–".data l

/-- Role selection and responsibility collection after a bullet company
line (source lines 429-442): the role line, the consumed dash lines and
the remaining lines. -/
def afterRole (rest : List (List Char)) :
    List Char × List (List Char) × List (List Char) :=
  match rest with
  | [] => ("Unknown Role".data, [], [])
  | r :: rest2 =>
    if roleLineOk r then
      (pyStrip r, rest2.takeWhile isDashLine, rest2.dropWhile isDashLine)
    else
      ("Unknown Role".data, (r :: rest2).takeWhile isDashLine,
       (r :: rest2).dropWhile isDashLine)

/-- Fuelled worker for `parseBullets`; every step consumes at least one
line, so fuel equal to the number of lines never runs out. -/
def parseBulletsF : Nat → List (List Char) → List ExperienceEntry
  | _, [] => []
  | 0, _ => []
  | fuel + 1, l :: rest =>
    if leads "•".data l then
      let cd := bulCompanyDuration (pyStrip (l.drop 1))
      let ar := afterRole rest
      bulEntry cd.1 ar.1 cd.2 ar.2.1 ++ parseBulletsF fuel ar.2.2
    else parseBulletsF fuel rest

/-- The bullet-company walk (source lines 404-453). -/
def parseBullets (lines : List (List Char)) : List ExperienceEntry :=
  parseBulletsF lines.length lines

def fmt2Starts : List (List Char) := ["experience", "work", "employment"].map String.data

/-- The descriptive fallback branch (source lines 456-469). -/
def format2Branch (lines : List (List Char)) : List ExperienceEntry :=
  let dls := lines.filter (fun l =>
    decide (10 < l.length) && !startsAny (lowerStr l) fmt2Starts)
  if dls.isEmpty then []
  else [{ company := "Professional Experience", role := "Various Roles",
          duration := "Ongoing", details := (dls.take 3).map String.mk }]

def coLits : List (List Char) :=
  ["SwitchiT", "Celebal Technologies", "CipherSquare Technologies"].map String.data

def coSufs : List (List Char) :=
  ["Corp", "Inc", "LLC", "Ltd", "Company", "Systems", "Solutions", "Group"].map String.data

/-- Character class `[a-zA-Z\s]` of the company pattern. -/
def coClassChar (c : Char) : Bool := c.isAlpha || pyIsSpace c

/-- Try `[a-zA-Z\s]{k} Technologies` after the initial capital for each
viable run length `k ≥ 1`. -/
def tryTechAfter (cs : List Char) : Nat → Bool
  | 0 => false
  | k + 1 => leads " Technologies".data (cs.drop (k + 1)) || tryTechAfter cs k

/-- Try `[a-zA-Z\s]{k}(Corp|Inc|LLC|Ltd|Company|Systems|Solutions|Group)`
after the initial capital for each viable run length `k ≥ 1`. -/
def trySufAfter (cs : List Char) : Nat → Bool
  | 0 => false
  | k + 1 => coSufs.any (fun suf => leads suf (cs.drop (k + 1))) || trySufAfter cs k

/-- Does the company-pattern lookahead of source line 474 match here?  The
pattern is used without `re.IGNORECASE`, hence case-sensitive. -/
def companyAltAt : List Char → Bool
  | [] => false
  | c :: cs =>
    coLits.any (fun w => leads w (c :: cs)) ||
    (c.isUpper && (tryTechAfter cs (cs.takeWhile coClassChar).length ||
                   trySufAfter cs (cs.takeWhile coClassChar).length))

/-- Zero-width split: cut before every position where the lookahead
matches, as `re.split` does on a pure lookahead pattern (a match at
position 0 produces a leading empty chunk). -/
def splitCoGo : List Char → List Char → List (List Char)
  | cur, [] => [cur.reverse]
  | cur, c :: cs =>
    if companyAltAt (c :: cs) then cur.reverse :: splitCoGo [c] cs
    else splitCoGo (c :: cur) cs

def splitCompanies (s : List Char) : List (List Char) := splitCoGo [] s

/-- First full month name at the head (source line 498 uses full month
names and no `re.IGNORECASE`). -/
def fullMonthAt (s : List Char) : Option Nat :=
  monthsFull.findSome? (fun m => if leads m s then some m.length else none)

/-- Month range tail ` - Present` or ` - Month YYYY`, matching to the very
end of the string (the pattern of source line 498 is `$`-anchored). -/
def expRangeEnd (v : List Char) : Bool :=
  let u := v.drop (v.takeWhile pyIsSpace).length
  match u with
  | d :: u2 =>
    (d == '–' || d == '-') &&
      (let u3 := u2.drop (u2.takeWhile pyIsSpace).length
       u3 == "Present".data ||
       (match fullMonthAt u3 with
        | some m =>
          let t := u3.drop m
          let w := (t.takeWhile pyIsSpace).length
          decide (0 < w) &&
            (match t.drop w with
             | [a, b, e, f] => a.isDigit && b.isDigit && e.isDigit && f.isDigit
             | _ => false)
        | none => false))
  | [] => false

/-- Does the `$`-anchored duration pattern of source line 498 match the
whole of `s`? -/
def expDateFrom (s : List Char) : Bool :=
  match fullMonthAt s with
  | none => false
  | some m =>
    let t := s.drop m
    let w := (t.takeWhile pyIsSpace).length
    decide (0 < w) &&
      (match t.drop w with
       | a :: b :: e :: f :: v =>
         a.isDigit && b.isDigit && e.isDigit && f.isDigit &&
           (v.isEmpty || expRangeEnd v)
       | _ => false)

/-- Leftmost start of the `$`-anchored duration pattern. -/
def findExpDateStart : List Char → Nat → Option Nat
  | [], _ => none
  | c :: cs, i =>
    if expDateFrom (c :: cs) then some i else findExpDateStart cs (i + 1)

/-- Company/role/duration of a structured-format first line
(source lines 486-508). -/
def parseHeader3 (first : List Char) : List Char × List Char × List Char :=
  if first.contains ',' then
    match splitOnceChar ',' first with
    | some (c0, rest0) =>
      let company := pyStrip c0
      let rest := pyStrip rest0
      if rest.contains '|' then
        match splitOnceChar '|' rest with
        | some (r0, d0) => (company, pyStrip r0, pyStrip d0)
        | none => (company, rest, "Unknown Duration".data)
      else
        match findExpDateStart rest 0 with
        | some st => (company, pyStrip (rest.take st), rest.drop st)
        | none => (company, rest, "Unknown Duration".data)
    | none => (first, "Unknown Role".data, "Unknown Duration".data)
  else
    (match pySplitWs first with
     | t :: _ => t
     | [] => "Unknown Company".data,
     "Unknown Role".data, "Unknown Duration".data)

/-- Structured-format responsibilities (source lines 511-516): bullet or
hyphen lines, stripped of the marker, kept when longer than 10. -/
def fmt3Resp (ls : List (List Char)) : List (List Char) :=
  ((ls.filter (fun l => leads "•".data l || leads "-".data l)).map
    (fun l => pyStrip (l.drop 1))).filter
    (fun r => !r.isEmpty && decide (10 < r.length))

/-- One structured-format chunk (source lines 477-524). -/
def mkEntry3 (rawEntry : List Char) : Option ExperienceEntry :=
  let entry := pyStrip rawEntry
  if decide (50 < entry.length) then
    match nonblankLines entry with
    | [] => none
    | first :: restLs =>
      let h := parseHeader3 first
      if !h.1.isEmpty && !h.2.1.isEmpty then
        some { company := String.mk h.1, role := String.mk h.2.1,
               duration := String.mk h.2.2,
               details := ((fmt3Resp restLs).take 5).map String.mk }
      else none
  else none

/-- The structured-format branch (source lines 472-524). -/
def format3Branch (body : List Char) : List ExperienceEntry :=
  (splitCompanies body).filterMap mkEntry3

/-- Dispatch among the three experience formats (source lines 313-524),
given the stripped section body and its trimmed non-blank lines. -/
def expBody (body : List Char) (lines : List (List Char)) : List ExperienceEntry :=
  if narrativeTrigger lines then narrativeBranch lines
  else if (match lines with | l :: _ => leads "•".data l | [] => false) then
    parseBullets lines
  else if !(lines.take 3).any (fun l => l.contains ',' || l.contains '|') then
    format2Branch lines
  else format3Branch body

/-- Embedding of `extract_experience` (source lines 303-526). -/
def extract_experience (text : String) : List ExperienceEntry :=
  match findSec kwEXPERIENCE expTerms text.data with
  | none => []
  | some body0 =>
    expBody (pyStrip body0) (nonblankLines (pyStrip body0))

/-! ### Projects extractor -/

structure ProjectEntry where
  title : String
  duration : String
  organization : Option String
  details : List String
deriving Repr, DecidableEq

def bullets5 : List (List Char) := ["∗", "•", "-", "–", "*"].map String.data

/-- Month alternatives of the project duration pattern: abbreviated name
with an optional greedy completion, e.g. `Jan(?:uary)?` (source line 556). -/
def monthPairs : List (List Char × List Char) :=
  [("January", "Jan"), ("February", "Feb"), ("March", "Mar"), ("April", "Apr"),
   ("May", "May"), ("June", "Jun"), ("July", "Jul"), ("August", "Aug"),
   ("September", "Sep"), ("October", "Oct"), ("November", "Nov"),
   ("December", "Dec")].map (fun p => (p.1.data, p.2.data))

/-- Character class `[.\s]`. -/
def dotWs (c : Char) : Bool := c == '.' || pyIsSpace c

/-- Match `[.\s]+\d{4}` at the head, returning the consumed length.  The
greedy run is maximal; no digit belongs to the class, so no backtracking
can occur. -/
def pAfterMonth (t : List Char) : Option Nat :=
  let w := (t.takeWhile dotWs).length
  if w = 0 then none
  else
    match t.drop w with
    | a :: b :: e :: f :: _ =>
      if a.isDigit && b.isDigit && e.isDigit && f.isDigit then some (w + 4) else none
    | _ => none

/-- Match `Month[.\s]+\d{4}` at the head with the abbreviated month
alternation, trying the greedy long form first, then the short form, as
`re` backtracking does.  No two different months can match at the same
position. -/
def pMonthYearAt (s : List Char) : Option Nat :=
  monthPairs.findSome? (fun p =>
    if leads p.1 s then
      match pAfterMonth (s.drop p.1.length) with
      | some k => some (p.1.length + k)
      | none => (pAfterMonth (s.drop p.2.length)).map (fun k => p.2.length + k)
    else if leads p.2 s then
      (pAfterMonth (s.drop p.2.length)).map (fun k => p.2.length + k)
    else none)

/-- Match the optional range part `\s*[-–]\s*(?:Present|Month[.\s]+\d{4})`
at the head, returning the consumed length. -/
def pRangeLen (v : List Char) : Option Nat :=
  let w := (v.takeWhile pyIsSpace).length
  match v.drop w with
  | d :: u2 =>
    if d == '-' || d == '–' then
      let w2 := (u2.takeWhile pyIsSpace).length
      let u3 := u2.drop w2
      if leads "Present".data u3 then some (w + 1 + w2 + 7)
      else (pMonthYearAt u3).map (fun k => w + 1 + w2 + k)
    else none
  | [] => none

/-- Match the whole project duration pattern at the head (greedy optional
range), returning the match length (source line 556). -/
def pDateAt (s : List Char) : Option Nat :=
  match pMonthYearAt s with
  | none => none
  | some base =>
    match pRangeLen (s.drop base) with
    | some r => some (base + r)
    | none => some base

/-- Leftmost match of the project duration pattern: (start, length). -/
def pDateSearch : List Char → Nat → Option (Nat × Nat)
  | [], _ => none
  | c :: cs, i =>
    match pDateAt (c :: cs) with
    | some n => some (i, n)
    | none => pDateSearch cs (i + 1)

/-- Delimiter of `re.split(r'(?m)^[–\-]\s+', ...)` at this position:
a dash at a line start followed by a maximal whitespace run. -/
def dashDelimAt (atStart : Bool) (s : List Char) : Option Nat :=
  match s with
  | d :: rest =>
    if atStart && (d == '–' || d == '-') then
      let w := (rest.takeWhile pyIsSpace).length
      if w = 0 then none else some (1 + w)
    else none
  | [] => none

/-- Fuelled worker scanning for the line-start dash delimiters, cutting
the text at each and dropping the delimiter, tracking whether the scan
position is at a line start; every step consumes at least one character,
so fuel equal to the length never runs out. -/
def splitProjGo : Nat → List Char → Bool → List Char → List (List Char)
  | _, cur, _, [] => [cur.reverse]
  | 0, cur, _, l => [(cur.reverse ++ l)]
  | fuel + 1, cur, atStart, c :: cs =>
    match dashDelimAt atStart (c :: cs) with
    | some (n + 1) =>
      cur.reverse ::
        splitProjGo fuel [] (((c :: cs.take n).getLastD c) == '\n') (cs.drop n)
    | _ => splitProjGo fuel (c :: cur) (c == '\n') cs

/-- Candidate project entries: split on the dash delimiters, strip, drop
empties (source lines 539-541). -/
def splitProjEntries (s : List Char) : List (List Char) :=
  ((splitProjGo s.length [] true s).map pyStrip).filter (fun e => !e.isEmpty)

/-- Tail shape of `re.sub(r'\s*[–\-]\s*$', '', title)`: whitespace, one
dash, whitespace, end. -/
def tailShape (u : List Char) : Bool :=
  match u.dropWhile pyIsSpace with
  | d :: rest => (d == '–' || d == '-') && rest.all pyIsSpace
  | [] => false

/-- Remove a trailing dash (with surrounding whitespace), cutting at the
leftmost position where the `$`-anchored pattern matches (source 566). -/
def titleDashStrip : List Char → List Char
  | [] => []
  | c :: cs => if tailShape (c :: cs) then [] else c :: titleDashStrip cs

/-- Organization line: the second line when it does not start with a
bullet marker (source lines 569-571). -/
def projOrg : List (List Char) → List Char
  | _ :: second :: _ => if !startsAny second bullets5 then second else []
  | _ => []

def projMeta : List (List Char) :=
  ["tool", "project link", "technologies used"].map String.data

/-- Push-time condition on an accumulated detail (source 585, 594). -/
def projDetailOk (d : List Char) : Bool :=
  decide (15 < d.length) && !startsAny (lowerStr d) projMeta

/-- Bullet accumulation with continuation merge for project details
(source lines 574-595), skipping lines equal to the organization label. -/
def projCollect (org : List Char) : List (List Char) → List Char → List (List Char) →
    List (List Char)
  | [], cur, acc => if !cur.isEmpty && projDetailOk cur then acc ++ [cur] else acc
  | l :: ls, cur, acc =>
    if l = org then projCollect org ls cur acc
    else if startsAny l bullets5 then
      projCollect org ls (pyStrip (l.drop 1))
        (if !cur.isEmpty && projDetailOk cur then acc ++ [cur] else acc)
    else if !cur.isEmpty then projCollect org ls (cur ++ ' ' :: pyStrip l) acc
    else projCollect org ls cur acc

/-- Strip a single leading bullet marker and the following whitespace,
`re.sub(r'^[∗•\-–\*]\s*', '', d)` (source line 601). -/
def projLeadBulletStrip : List Char → List Char
  | [] => []
  | c :: cs =>
    if c == '∗' || c == '•' || c == '-' || c == '–' || c == '*' then
      cs.dropWhile pyIsSpace
    else c :: cs

/-- Final cleanup of project details (source lines 598-605). -/
def projCleanDetails (ds : List (List Char)) : List (List Char) :=
  (ds.map (fun d => pyStrip (normWs (projLeadBulletStrip d)))).filter
    (fun d => !d.isEmpty && decide (15 < d.length) && !startsAny (lowerStr d) projMeta)

def projBadTitle : List (List Char) :=
  ["individual project", "development project"].map String.data

def projOrgBad : List (List Char) := projMeta ++ projBadTitle

/-- Title and duration of a project first line (source lines 556-566):
a found date match yields (stripped prefix with trailing dash removed,
matched text); absence yields the whole line and "Not specified". -/
def projTitleDuration (first : List Char) : List Char × List Char :=
  match pDateSearch first 0 with
  | some (st, n) =>
    (titleDashStrip (pyStrip (first.take st)), (first.drop st).take n)
  | none => (titleDashStrip first, "Not specified".data)

/-- Assemble one project entry from the computed title/duration pair, the
organization line and the cleaned details (source lines 607-618). -/
def mkProjectFrom (td : List Char × List Char) (org : List Char)
    (details : List (List Char)) : Option ProjectEntry :=
  if !td.1.isEmpty && decide (3 < td.1.length) &&
      !projBadTitle.any (fun x => hasSub x (lowerStr td.1)) then
    some { title := String.mk td.1, duration := String.mk td.2,
           organization :=
             if !org.isEmpty && !projOrgBad.any (fun x => hasSub x (lowerStr org)) then
               some (String.mk org)
             else none,
           details := (details.take 4).map String.mk }
  else none

/-- One candidate project entry (source lines 543-618). -/
def mkProject (entry : List Char) : Option ProjectEntry :=
  match nonblankLines entry with
  | [] => none
  | first :: restLs =>
    mkProjectFrom (projTitleDuration first) (projOrg (first :: restLs))
      (projCleanDetails (projCollect (projOrg (first :: restLs)) restLs [] []))

/-- Embedding of `extract_projects` (source lines 528-620). -/
def extract_projects (text : String) : List ProjectEntry :=
  match findSec kwPROJECTS projTerms text.data with
  | none => []
  | some body => (splitProjEntries (pyStrip body)).filterMap mkProject

/-! ### Education extractor -/

/-- Embedding of `extract_education` (source lines 622-638). -/
def extract_education (text : String) : List String :=
  match findSec kwEDUCATION eduTerms text.data with
  | none => []
  | some body =>
    (((splitChar '\n' (pyStrip body)).map pyStrip).filter
      (fun l => !l.isEmpty && decide (20 < l.length))).map String.mk

/-! ### Basic info extractor -/

structure BasicInfo where
  name : String
  email : String
  phone : String
deriving Repr, DecidableEq

def genericHdrs : List (List Char) :=
  ["resume", "cv", "curriculum vitae"].map String.data

/-- A word looks name-like: alphabetic once periods and commas are
removed, and the first character of the original word is an uppercase
letter (source line 237). -/
def wordNameOk (w : List Char) : Bool :=
  (let f := w.filter (fun c => !(c == '.' || c == ','))
   !f.isEmpty && f.all Char.isAlpha) &&
  (match w with
   | c :: _ => c.isUpper
   | [] => false)

/-- A stripped line qualifies as a name: 2 to 4 words, all name-like
(source lines 235-237). -/
def nameQualifies (t : List Char) : Bool :=
  let ws := pySplitWs t
  decide (2 ≤ ws.length) && decide (ws.length ≤ 4) && ws.all wordNameOk

/-- A stripped line is skipped by the name scan: blank, or equal
(case-insensitively) to a generic header (source line 231). -/
def nameSkip (t : List Char) : Bool :=
  t.isEmpty || genericHdrs.contains (lowerStr t)

/-- A stripped line is accepted as the name: not skipped and qualifying. -/
def nameAccept (t : List Char) : Bool :=
  !nameSkip t && nameQualifies t

/-- The name scan loop over the first lines (source lines 229-239). -/
def nameLoop : List (List Char) → List Char
  | [] => "Not found".data
  | l :: ls =>
    let t := pyStrip l
    if nameSkip t then nameLoop ls
    else if nameQualifies t then t
    else nameLoop ls

def localClassC (c : Char) : Bool :=
  c.isAlpha || c.isDigit || c == '.' || c == '_' || c == '%' || c == '+' || c == '-'

def domClassC (c : Char) : Bool :=
  c.isAlpha || c.isDigit || c == '.' || c == '-'

def tldClassC (c : Char) : Bool := c.isAlpha || c == '|'

/-- Top-level-domain part `[A-Z|a-z]{2,}\b` of the email pattern: try the
greedy length first, backtracking down to 2. -/
def emailTld (tl : List Char) : Nat → Option Nat
  | 0 => none
  | 1 => none
  | t + 2 =>
    if !(wOpt (tl.take (t + 2)).getLast? == wOpt (tl.drop (t + 2)).head?) then
      some (t + 2)
    else emailTld tl (t + 1)

/-- Domain part `[A-Za-z0-9.-]+\.[A-Z|a-z]{2,}\b` of the email pattern:
try the greedy domain length first, backtracking down to 1; the literal
dot must follow the consumed domain run. -/
def emailDom (rest : List Char) : Nat → Option Nat
  | 0 => none
  | d + 1 =>
    (match rest.drop (d + 1) with
     | '.' :: tl =>
       (emailTld tl (tl.takeWhile tldClassC).length).map (fun t => (d + 1) + 1 + t)
     | _ => none) <|> emailDom rest d

/-- Match the email pattern
`\b[A-Za-z0-9._%+-]+@[A-Za-z0-9.-]+\.[A-Z|a-z]{2,}\b` at the head, with
`prev` the character just before; returns the match length.  The local
part never backtracks because `@` is not in its class. -/
def tryEmailAt (prev : Option Char) (u : List Char) : Option Nat :=
  match u with
  | [] => none
  | c :: _ =>
    if wOpt prev == isWordChar c then none
    else
      let L := (u.takeWhile localClassC).length
      if L = 0 then none
      else
        match u.drop L with
        | '@' :: rest =>
          let D := (rest.takeWhile domClassC).length
          (emailDom rest D).map (fun k => L + 1 + k)
        | _ => none

/-- Leftmost email match (the source uses `re.findall(...)[0]`). -/
def scanEmail : Option Char → List Char → Option (List Char)
  | _, [] => none
  | prev, c :: cs =>
    match tryEmailAt prev (c :: cs) with
    | some n => some ((c :: cs).take n)
    | none => scanEmail (some c) cs

def digRun (s : List Char) : Nat := (s.takeWhile Char.isDigit).length

/-- Exactly ten digits are consumed when at least ten digits follow. -/
def tenDigits (s : List Char) : Bool := decide (10 ≤ digRun s)

/-- Phone alternative `\(\+\d{1,3}\)\s?\d{10}`. -/
def phoneA1 (u : List Char) : Option Nat :=
  match u with
  | '(' :: '+' :: rest =>
    let r := digRun rest
    if 1 ≤ r ∧ r ≤ 3 then
      match rest.drop r with
      | ')' :: after =>
        (match after with
         | w :: tail2 =>
           if pyIsSpace w then
             if tenDigits tail2 then some (2 + r + 1 + 1 + 10) else none
           else if tenDigits after then some (2 + r + 1 + 10) else none
         | [] => none)
      | _ => none
    else none
  | _ => none

/-- Digit-count backtracking of `\+\d{1,3}[\s\-]?\d{10}`: try `d + 1`
digits for the country code, descending. -/
def phoneA2d (rest : List Char) : Nat → Option Nat
  | 0 => none
  | d + 1 =>
    (match rest.drop (d + 1) with
     | w :: tail2 =>
       if pyIsSpace w || w == '-' then
         if tenDigits tail2 then some (1 + (d + 1) + 1 + 10) else none
       else if tenDigits (rest.drop (d + 1)) then some (1 + (d + 1) + 10) else none
     | [] => none) <|> phoneA2d rest d

/-- Phone alternative `\+\d{1,3}[\s\-]?\d{10}`. -/
def phoneA2 (u : List Char) : Option Nat :=
  match u with
  | '+' :: rest => phoneA2d rest (min 3 (digRun rest))
  | _ => none

/-- Phone alternative `\(\+\d{1,3}\)\d{10}`. -/
def phoneA3 (u : List Char) : Option Nat :=
  match u with
  | '(' :: '+' :: rest =>
    let r := digRun rest
    if 1 ≤ r ∧ r ≤ 3 then
      match rest.drop r with
      | ')' :: after => if tenDigits after then some (2 + r + 1 + 10) else none
      | _ => none
    else none
  | _ => none

/-- Phone alternative `\d{10}`. -/
def phoneA4 (u : List Char) : Option Nat :=
  if tenDigits u then some 10 else none

/-- The phone alternation of source line 247, alternatives in order. -/
def tryPhoneAt (u : List Char) : Option Nat :=
  phoneA1 u <|> phoneA2 u <|> phoneA3 u <|> phoneA4 u

/-- Leftmost phone match (the source uses `re.findall(...)[0]`; the single
group spans the whole alternation, so the group equals the match). -/
def scanPhone : List Char → Option (List Char)
  | [] => none
  | c :: cs =>
    match tryPhoneAt (c :: cs) with
    | some n => some ((c :: cs).take n)
    | none => scanPhone cs

/-- Embedding of `extract_basic_info` (source lines 222-251). -/
def extract_basic_info (text : String) : BasicInfo :=
  { name := String.mk (nameLoop ((splitChar '\n' text.data).take 10)),
    email :=
      match scanEmail none text.data with
      | some m => String.mk m
      | none => "Not found",
    phone :=
      match scanPhone text.data with
      | some m => String.mk m
      | none => "Not found" }

/-! ### Link extraction -/

def urlClassC (c : Char) : Bool :=
  c.isAlpha || c.isDigit || c == '_' || c == '-'

/-- The four mutually exclusive expansions of
`https?://(?:www\.)?github\.com/`. -/
def ghPres : List (List Char) :=
  ["https://www.github.com/", "https://github.com/",
   "http://www.github.com/", "http://github.com/"].map String.data

/-- Match `https?://(?:www\.)?github\.com/[A-Za-z0-9_-]+/?(?!\S)` at the
head (source line 190): maximal user-name run, optional slash, then end
or whitespace; shrinking the run can never satisfy the lookahead because
a run character is itself non-whitespace. -/
def tryGithubAt (u : List Char) : Option Nat :=
  ghPres.findSome? (fun p =>
    if leads p u then
      let rest := u.drop p.length
      let r := (rest.takeWhile urlClassC).length
      if r = 0 then none
      else
        match rest.drop r with
        | '/' :: tl =>
          (match tl with
           | [] => some (p.length + r + 1)
           | w :: _ => if pyIsSpace w then some (p.length + r + 1) else none)
        | [] => some (p.length + r)
        | w :: _ => if pyIsSpace w then some (p.length + r) else none
    else none)

/-- Fuelled worker for `scanGithubAll`. -/
def scanGithubAllF : Nat → List Char → List (List Char)
  | _, [] => []
  | 0, _ => []
  | fuel + 1, c :: cs =>
    match tryGithubAt (c :: cs) with
    | some (n + 1) => ((c :: cs).take (n + 1)) :: scanGithubAllF fuel (cs.drop n)
    | _ => scanGithubAllF fuel cs

/-- Python `re.findall` of the GitHub URL pattern over the raw text. -/
def scanGithubAll (l : List Char) : List (List Char) :=
  scanGithubAllF l.length l

/-- The eight mutually exclusive expansions of
`https?://(?:www\.)?linkedin\.com/(?:in|profile)/`. -/
def liPres : List (List Char) :=
  ["https://www.linkedin.com/in/", "https://www.linkedin.com/profile/",
   "https://linkedin.com/in/", "https://linkedin.com/profile/",
   "http://www.linkedin.com/in/", "http://www.linkedin.com/profile/",
   "http://linkedin.com/in/", "http://linkedin.com/profile/"].map String.data

/-- Match the LinkedIn URL pattern of source line 191 at the head. -/
def tryLinkedinAt (u : List Char) : Option Nat :=
  liPres.findSome? (fun p =>
    if leads p u then
      let rest := u.drop p.length
      let r := (rest.takeWhile urlClassC).length
      if r = 0 then none
      else
        match rest.drop r with
        | '/' :: tl =>
          (match tl with
           | [] => some (p.length + r + 1)
           | w :: _ => if pyIsSpace w then some (p.length + r + 1) else none)
        | [] => some (p.length + r)
        | w :: _ => if pyIsSpace w then some (p.length + r) else none
    else none)

/-- Fuelled worker for `scanLinkedinAll`. -/
def scanLinkedinAllF : Nat → List Char → List (List Char)
  | _, [] => []
  | 0, _ => []
  | fuel + 1, c :: cs =>
    match tryLinkedinAt (c :: cs) with
    | some (n + 1) => ((c :: cs).take (n + 1)) :: scanLinkedinAllF fuel (cs.drop n)
    | _ => scanLinkedinAllF fuel cs

/-- Python `re.findall` of the LinkedIn URL pattern over the raw text. -/
def scanLinkedinAll (l : List Char) : List (List Char) :=
  scanLinkedinAllF l.length l

/-- Embedding of `extract_links_from_text` (source lines 188-192). -/
def extract_links_from_text (text : String) : List String × List String :=
  ((scanGithubAll text.data).map String.mk,
   (scanLinkedinAll text.data).map String.mk)

/-- Segment test of `([^/]+)$`: non-empty and free of slashes (a `$` just
before a final newline adds nothing here, since a newline is itself not a
slash, so the two readings of `$` coincide on every input). -/
def ghSeg (seg : List Char) : Bool :=
  !seg.isEmpty && seg.all (fun c => !(c == '/'))

/-- Translation of `re.match(r"https?://github\.com/([^/]+)$", link)`
(source line 643). -/
def githubProfileRe (l : String) : Bool :=
  if leads "https://github.com/".data l.data then ghSeg (l.data.drop 19)
  else if leads "http://github.com/".data l.data then ghSeg (l.data.drop 18)
  else false

/-- Embedding of `get_github_profile` (source lines 640-646). -/
def get_github_profile : List String → Option String
  | [] => none
  | l :: rest => if githubProfileRe l then some l else get_github_profile rest

/-- The `github` field of the assembled fallback record,
`github_profile or "Not found"` (source line 733); a link returned by the
profile filter is never the empty string, so Python truthiness agrees
with the `Option` case split. -/
def githubField (o : Option String) : String := o.getD "Not found"

/-- Profile shape stated by the spec: a URL matching exactly
`https?://github.com/<single-path-segment>` with no further path (the
path segment is the non-empty remainder, which must be slash-free). -/
def specGithubProfile (l : String) : Bool :=
  (List.isPrefixOf "https://github.com/".data l.data &&
    (decide (l.data.drop 19 ≠ []) && !(l.data.drop 19).contains '/')) ||
  (List.isPrefixOf "http://github.com/".data l.data &&
    (decide (l.data.drop 18 ≠ []) && !(l.data.drop 18).contains '/'))

/-! ### Spec-side characterizations -/

/-- The name rule as the spec words it: scan at most the first 10 lines;
skip blank lines and lines case-insensitively equal to a generic header;
accept the first line whose word count is 2-4 where every word is
alphabetic once punctuation is stripped and begins with an uppercase
letter; absence yields "Not found". -/
def specNameRule (text : String) : String :=
  String.mk (((((splitChar '\n' text.data).take 10).map pyStrip).find? nameAccept).getD
    "Not found".data)

/-! ### Helper lemmas -/

theorem getLast?_mem_list {α : Type} {l : List α} {a : α}
    (h : l.getLast? = some a) : a ∈ l := by
  rcases List.mem_getLast?_eq_getLast (by simpa [Option.mem_def] using h) with ⟨hne, rfl⟩
  exact List.getLast_mem hne

theorem leads_get (p : List Char) :
    ∀ d, leads p d = true → ∀ i, i < p.length → d.get? i = p.get? i := by
  induction p with
  | nil =>
    intro d h i hi
    simp at hi
  | cons a as ih =>
    intro d h i hi
    cases d with
    | nil => simp [leads] at h
    | cons b bs =>
      rw [leads, Bool.and_eq_true] at h
      have hab : a = b := by
        have := h.1
        simpa [beq_iff_eq] using this.symm
      cases i with
      | zero => simp [hab]
      | succ j =>
        simp only [List.get?]
        exact ih bs h.2 j (by simpa using hi)

theorem ne_nil_decide (s : List Char) : (!s.isEmpty) = decide (s ≠ []) := by
  cases s <;> simp

theorem all_ne_slash (seg : List Char) :
    (seg.all fun c => !(c == '/')) = !seg.contains '/' := by
  induction seg with
  | nil => simp
  | cons c cs ih =>
    by_cases hc : c = '/'
    · simp [hc]
    · have hc2 : ¬ ('/' : Char) = c := fun h => hc h.symm
      simp [hc, hc2, ih]

theorem ghSeg_eq_spec (seg : List Char) :
    ghSeg seg = (decide (seg ≠ []) && !seg.contains '/') := by
  rw [ghSeg, ne_nil_decide, all_ne_slash]

theorem leads_eq (p : List Char) : ∀ l, leads p l = List.isPrefixOf p l := by
  induction p with
  | nil => intro l; cases l <;> rfl
  | cons a as ih =>
    intro l
    cases l with
    | nil => rfl
    | cons b bs => simp [leads, List.isPrefixOf, ih]

/-- The two scheme expansions of the profile regex cannot both lead the
same string: they disagree at character index 4. -/
theorem ghPres_excl (d : List Char)
    (h1 : leads "https://github.com/".data d = true)
    (h2 : leads "http://github.com/".data d = true) : False := by
  have e1 := leads_get _ d h1 4 (by decide)
  have e2 := leads_get _ d h2 4 (by decide)
  rw [e1] at e2
  simp at e2

theorem ghRe_eq_spec (l : String) : githubProfileRe l = specGithubProfile l := by
  unfold githubProfileRe specGithubProfile
  simp only [← leads_eq, ghSeg_eq_spec]
  by_cases h1 : leads "https://github.com/".data l.data = true
  · by_cases h2 : leads "http://github.com/".data l.data = true
    · exact (ghPres_excl l.data h1 h2).elim
    · simp [h1, h2]
  · by_cases h2 : leads "http://github.com/".data l.data = true
    · simp [h1, h2]
    · simp [h1, h2]

/-- Characterization of the skill cleaning loop: an item is in the result
iff it is already in the accumulator or it passes the per-item filter and
is the stripped form of some collected item.  The duplicate test removes
only exact repetitions, so it never changes membership. -/
theorem mem_cleanLoop (x : List Char) :
    ∀ (l acc : List (List Char)),
      (x ∈ cleanLoop l acc ↔
        x ∈ acc ∨ (baseOk x = true ∧ ∃ s ∈ l, pyStrip s = x)) := by
  intro l
  induction l with
  | nil => intro acc; simp [cleanLoop]
  | cons s rest ih =>
    intro acc
    by_cases h : baseOk (pyStrip s) ∧ pyStrip s ∉ acc
    · rw [cleanLoop]
      simp only [if_pos h]
      rw [ih]
      constructor
      · rintro (hx | ⟨hb, t, ht, hts⟩)
        · rcases List.mem_append.mp hx with h1 | h1
          · exact Or.inl h1
          · have hx2 : x = pyStrip s := by simpa using h1
            subst hx2
            exact Or.inr ⟨h.1, s, by simp⟩
        · exact Or.inr ⟨hb, t, List.mem_cons_of_mem s ht, hts⟩
      · rintro (hx | ⟨hb, t, ht, hts⟩)
        · exact Or.inl (List.mem_append.mpr (Or.inl hx))
        · rcases List.mem_cons.mp ht with rfl | ht2
          · subst hts
            exact Or.inl (List.mem_append.mpr (Or.inr (by simp)))
          · exact Or.inr ⟨hb, t, ht2, hts⟩
    · rw [cleanLoop]
      simp only [if_neg h]
      rw [ih]
      constructor
      · rintro (hx | ⟨hb, t, ht, hts⟩)
        · exact Or.inl hx
        · exact Or.inr ⟨hb, t, List.mem_cons_of_mem s ht, hts⟩
      · rintro (hx | ⟨hb, t, ht, hts⟩)
        · exact Or.inl hx
        · rcases List.mem_cons.mp ht with rfl | ht2
          · subst hts
            rcases not_and_or.mp h with hnb | hmem
            · exact absurd hb hnb
            · exact Or.inl (not_not.mp hmem)
          · exact Or.inr ⟨hb, t, ht2, hts⟩

/-- The name scan loop is the first-match rule the spec describes. -/
theorem nameLoop_eq_find (ls : List (List Char)) :
    nameLoop ls = (((ls.map pyStrip).find? nameAccept).getD "Not found".data) := by
  induction ls with
  | nil => rfl
  | cons l ls ih =>
    rw [List.map_cons]
    by_cases h1 : nameSkip (pyStrip l) = true
    · rw [List.find?_cons_of_neg _ (by simp [nameAccept, h1])]
      simp only [nameLoop]
      rw [if_pos h1]
      exact ih
    · by_cases h2 : nameQualifies (pyStrip l) = true
      · rw [List.find?_cons_of_pos _ (by simp [nameAccept, h1, h2])]
        simp only [nameLoop]
        rw [if_neg h1, if_pos h2]
        rfl
      · rw [List.find?_cons_of_neg _ (by simp [nameAccept, h2])]
        simp only [nameLoop]
        rw [if_neg h1, if_neg h2]
        exact ih

theorem len_take_le {α : Type} (n : Nat) (l : List α) : (l.take n).length ≤ n := by
  rw [List.length_take]
  exact min_le_left _ _

/-- Every entry of the narrative branch is either the synthetic
"Domain Expertise" entry (whose details are not capped) or has at most 5
details. -/
theorem narrativeBranch_cap (lines : List (List Char)) :
    ∀ e ∈ narrativeBranch lines, e.role = "Domain Expertise" ∨ e.details.length ≤ 5 := by
  intro e he
  simp only [narrativeBranch] at he
  rcases List.mem_append.mp he with h | h
  · cases hfi : lines.findIdx? isCompanyLine with
    | none =>
      rw [hfi] at h
      exact absurd h (List.not_mem_nil e)
    | some idx =>
      rw [hfi] at h
      have he2 := List.mem_singleton.mp h
      right
      rw [he2]
      simp only [List.length_map]
      exact len_take_le 5 _
  · by_cases hex : (expertiseLinesOf lines).isEmpty = true
    · rw [if_pos hex] at h
      exact absurd h (List.not_mem_nil e)
    · rw [if_neg hex] at h
      have he2 := List.mem_singleton.mp h
      left
      rw [he2]

theorem bulEntry_cap (c r d : List Char) (resps : List (List Char)) :
    ∀ e ∈ bulEntry c r d resps, e.details.length ≤ 5 := by
  intro e he
  rw [bulEntry] at he
  split at he
  · have he2 := List.mem_singleton.mp he
    rw [he2]
    simp only [List.length_map]
    exact len_take_le 5 _
  · exact absurd he (List.not_mem_nil e)

theorem parseBulletsF_cap : ∀ (fuel : Nat) (ls : List (List Char)),
    ∀ e ∈ parseBulletsF fuel ls, e.details.length ≤ 5 := by
  intro fuel
  induction fuel with
  | zero =>
    intro ls e he
    cases ls <;> simp [parseBulletsF] at he
  | succ fuel ih =>
    intro ls e he
    cases ls with
    | nil => simp [parseBulletsF] at he
    | cons l rest =>
      simp only [parseBulletsF] at he
      by_cases hb : leads "•".data l = true
      · rw [if_pos hb] at he
        rcases List.mem_append.mp he with h | h
        · exact bulEntry_cap _ _ _ _ e h
        · exact ih _ e h
      · rw [if_neg hb] at he
        exact ih rest e he

theorem format2Branch_cap (lines : List (List Char)) :
    ∀ e ∈ format2Branch lines, e.details.length ≤ 5 := by
  intro e he
  simp only [format2Branch] at he
  split at he
  · exact absurd he (List.not_mem_nil e)
  · have he2 := List.mem_singleton.mp he
    rw [he2]
    simp only [List.length_map]
    exact le_trans (len_take_le 3 _) (by omega)

theorem mkEntry3_cap (a : List Char) (e : ExperienceEntry)
    (h : mkEntry3 a = some e) : e.details.length ≤ 5 := by
  simp only [mkEntry3] at h
  split at h
  · split at h
    · exact absurd h (by simp)
    · split at h
      · have h2 := Option.some.inj h
        rw [← h2]
        simp only [List.length_map]
        exact len_take_le 5 _
      · exact absurd h (by simp)
  · exact absurd h (by simp)

theorem format3Branch_cap (body : List Char) :
    ∀ e ∈ format3Branch body, e.details.length ≤ 5 := by
  intro e he
  rw [format3Branch] at he
  rcases List.mem_filterMap.mp he with ⟨a, _, ha⟩
  exact mkEntry3_cap a e ha

theorem expBody_cap (body : List Char) (lines : List (List Char)) :
    ∀ e ∈ expBody body lines, e.role = "Domain Expertise" ∨ e.details.length ≤ 5 := by
  intro e he
  simp only [expBody] at he
  split at he
  · exact narrativeBranch_cap lines e he
  · split at he
    · exact Or.inr (parseBulletsF_cap _ _ e he)
    · split at he
      · exact Or.inr (format2Branch_cap lines e he)
      · exact Or.inr (format3Branch_cap body e he)

theorem mkProjectFrom_cap (td : List Char × List Char) (org : List Char)
    (details : List (List Char)) (p : ProjectEntry)
    (h : mkProjectFrom td org details = some p) : p.details.length ≤ 4 := by
  rw [mkProjectFrom] at h
  split at h
  · have h2 := Option.some.inj h
    rw [← h2]
    simp only [List.length_map]
    exact len_take_le 4 _
  · exact absurd h (by simp)

theorem mkProject_cap (a : List Char) (p : ProjectEntry)
    (h : mkProject a = some p) : p.details.length ≤ 4 := by
  rw [mkProject] at h
  split at h
  · exact absurd h (by simp)
  · exact mkProjectFrom_cap _ _ _ p h

/-! ### Theorems -/

/-- Concrete text around which several claims revolve: an EXPERIENCE
section whose body is the three lines of Scenario B of the spec. -/
def scenB : String :=
  "EXPERIENCE\n• Acme Technologies Summer Internship\nSoftware Engineer Intern\n– Built a pipeline that reduced latency by 40%"

/-- C2 counterexample: on the Scenario B input the extractor emits no
entry whose company is "Acme"; the company it reports keeps the bullet
and the word "Technologies". -/
theorem scenB_company_cex :
    (extract_experience scenB).map (fun e => e.company) = ["• Acme Technologies"] ∧
    ¬ ∃ e ∈ extract_experience scenB, e.company = "Acme" := by
  refine ⟨by decide, by decide⟩

/-- C2 (amended): on the Scenario B input, extract_experience returns
exactly one entry with company "• Acme Technologies" (the bullet marker
and "Technologies" survive, only the "Summer Internship" suffix is
stripped), duration "Summer Internship", role "Software Engineer Intern",
and the single stated detail. -/
theorem scenB_entry :
    extract_experience scenB =
      [{ company := "• Acme Technologies", role := "Software Engineer Intern",
         duration := "Summer Internship",
         details := ["Built a pipeline that reduced latency by 40%"] }] := by
  decide

/-- Prose document in which "education" occurs only inside a sentence. -/
def c3edu : String := "I value education greatly, and this sentence runs long enough"

/-- C3 counterexample: a header keyword occurring only inside prose does
start a section span; on this document the education extractor returns a
non-empty list even though "education" appears only mid-sentence. -/
theorem header_substring_cex : extract_education c3edu ≠ [] := by
  decide

/-- C3 (amended): header keywords are matched as case-insensitive
substrings followed by whitespace, not as whole tokens: in prose text the
keyword does start a section span, so the education extractor captures the
rest of the sentence, and the phrase "project experience" similarly opens
an EXPERIENCE span. -/
theorem header_substring_matching :
    extract_education c3edu = ["greatly, and this sentence runs long enough"] ∧
    findSec kwEXPERIENCE expTerms "we discuss project experience topics here".data =
      some "topics here".data := by
  constructor
  · decide
  · decide

/-- C5: whenever the section regex finds no match, the experience,
projects and education extractors return the empty list (they are total
functions, so no exception or error value is possible). -/
theorem absent_section_empty (text : String) :
    (findSec kwEXPERIENCE expTerms text.data = none → extract_experience text = []) ∧
    (findSec kwPROJECTS projTerms text.data = none → extract_projects text = []) ∧
    (findSec kwEDUCATION eduTerms text.data = none → extract_education text = []) := by
  refine ⟨fun h => ?_, fun h => ?_, fun h => ?_⟩
  · simp [extract_experience, h]
  · simp [extract_projects, h]
  · simp [extract_education, h]

/-- Witness for C5 at the concrete header-free document "hello". -/
theorem absent_section_empty_wit :
    extract_experience "hello" = [] ∧ extract_projects "hello" = [] ∧
    extract_education "hello" = [] :=
  ⟨(absent_section_empty "hello").1 (by decide),
   (absent_section_empty "hello").2.1 (by decide),
   (absent_section_empty "hello").2.2 (by decide)⟩

/-- C6: Scenario A, the skills line "Languages Python | C++ | SQL": the
leading token is discarded as a category label, the rest splits on the
pipes, and all three items survive the post-filter. -/
theorem skills_scenario_a :
    extract_skills "SKILLS\nLanguages Python | C++ | SQL" = ["Python", "C++", "SQL"] := by
  decide

/-- Concrete EXPERIENCE document with six expertise lines, exercising the
uncapped synthetic "Domain Expertise" entry. -/
def c1cex : String :=
  "EXPERIENCE\nworking in ai alpha\nworking in ai beta\nworking in ai gamma\nworking in ai delta\nworking in ai epsilon\nworking in ai zeta"

/-- C1 counterexample: the synthetic "Domain Expertise" entry of the
narrative experience format has an uncapped details list; on this input
the single returned entry carries six details, so the claimed bound of 5
fails. -/
theorem caps_cex :
    (extract_experience c1cex).map (fun e => e.details.length) = [6] ∧
    ¬ (∀ e ∈ extract_experience c1cex, e.details.length ≤ 5) := by
  refine ⟨by decide, by decide⟩

/-- C1 (amended): extract_skills returns at most 15 skills and every
project entry has at most 4 details; every experience entry has at most 5
details except the synthetic "Domain Expertise" expertise entry of the
narrative format, whose details list is not capped. -/
theorem caps_amended (text : String) :
    (extract_skills text).length ≤ 15 ∧
    (∀ e ∈ extract_experience text, e.role = "Domain Expertise" ∨ e.details.length ≤ 5) ∧
    (∀ p ∈ extract_projects text, p.details.length ≤ 4) := by
  refine ⟨?_, ?_, ?_⟩
  · rw [extract_skills]
    exact len_take_le 15 _
  · rw [extract_experience]
    cases hsec : findSec kwEXPERIENCE expTerms text.data with
    | none => intro e he; exact absurd he (List.not_mem_nil e)
    | some body0 => exact expBody_cap _ _
  · rw [extract_projects]
    cases hsec : findSec kwPROJECTS projTerms text.data with
    | none => intro p hp; exact absurd hp (List.not_mem_nil p)
    | some body =>
      intro p hp
      rcases List.mem_filterMap.mp hp with ⟨a, _, ha⟩
      exact mkProject_cap a p ha

/-- Concrete one-project document used by the C1 witness. -/
def projWit : String :=
  "PROJECTS\n– Chat Application\n∗ Implemented real time messaging with websockets"

/-- Witness for C1 at concrete inputs: the Scenario B experience entry and
a concrete project entry both satisfy the amended caps. -/
theorem caps_amended_wit :
    (extract_skills scenB).length ≤ 15 ∧
    (({ company := "• Acme Technologies", role := "Software Engineer Intern",
        duration := "Summer Internship",
        details := ["Built a pipeline that reduced latency by 40%"] } :
        ExperienceEntry).role = "Domain Expertise" ∨
      ({ company := "• Acme Technologies", role := "Software Engineer Intern",
         duration := "Summer Internship",
         details := ["Built a pipeline that reduced latency by 40%"] } :
         ExperienceEntry).details.length ≤ 5) ∧
    ({ title := "Chat Application", duration := "Not specified",
       organization := none,
       details := ["Implemented real time messaging with websockets"] } :
       ProjectEntry).details.length ≤ 4 :=
  ⟨(caps_amended scenB).1,
   (caps_amended scenB).2.1 _ (by decide),
   (caps_amended projWit).2.2 _ (by decide)⟩

/-- C4: get_github_profile returns the first candidate matching exactly
`https?://github.com/<single-path-segment>` with no further path, and
`none` when no candidate matches (find? of the empty list is `none`); on
the concrete pair the repository URL is excluded. -/
theorem github_profile_first (links : List String) :
    get_github_profile links = links.find? specGithubProfile ∧
    get_github_profile ["https://github.com/alice", "https://github.com/alice/repo1"] =
      some "https://github.com/alice" := by
  constructor
  · induction links with
    | nil => rfl
    | cons l ls ih =>
      by_cases h : githubProfileRe l = true
      · have h2 : specGithubProfile l = true := ghRe_eq_spec l ▸ h
        rw [get_github_profile, if_pos h, List.find?_cons_of_pos _ h2]
      · have h2 : ¬ specGithubProfile l = true := fun hh => h (ghRe_eq_spec l ▸ hh)
        rw [get_github_profile, if_neg h, List.find?_cons_of_neg _ h2]
        exact ih
  · decide

/-- C7: the name is derived by the first-match scan the spec describes
(at most the first 10 lines, skipping blanks and generic headers,
accepting the first 2-4 word title-cased alphabetic line, defaulting to
"Not found"); in particular "JOHN SMITH DOE" preceded by a line "resume"
is accepted. -/
theorem name_rule (text : String) :
    (extract_basic_info text).name = specNameRule text ∧
    (extract_basic_info "resume\nJOHN SMITH DOE").name = "JOHN SMITH DOE" := by
  constructor
  · exact congrArg String.mk (nameLoop_eq_find _)
  · decide

/-- Concrete document whose only GitHub link is a bare profile URL with a
trailing slash. -/
def c9doc : String := "See https://github.com/alice/ now"

/-- C9: the profile filter rejects every candidate that ends with a slash
and every candidate with "www." after the scheme, although the text
scanner can produce such candidates; on the concrete document the scanner
yields the trailing-slash URL, the filter returns none, and the record
field becomes "Not found". -/
theorem github_scanner_filter_mismatch (link : String) :
    (link.data.getLast? = some '/' → githubProfileRe link = false) ∧
    (∀ s : String,
      githubProfileRe (String.mk ("https://www.".data ++ s.data)) = false ∧
      githubProfileRe (String.mk ("http://www.".data ++ s.data)) = false) ∧
    (extract_links_from_text c9doc).1 = ["https://github.com/alice/"] ∧
    get_github_profile ["https://github.com/alice/"] = none ∧
    githubField (get_github_profile ["https://github.com/alice/"]) = "Not found" := by
  refine ⟨?_, fun s => ⟨rfl, rfl⟩, by decide, by decide, by decide⟩
  intro hlast
  by_cases hre : githubProfileRe link = true
  · exfalso
    rw [githubProfileRe] at hre
    have slashFree : ∀ k, ghSeg (link.data.drop k) = true → False := by
      intro k hseg
      rw [ghSeg, Bool.and_eq_true] at hseg
      have hne : link.data.drop k ≠ [] := by
        cases hd : link.data.drop k with
        | nil => rw [hd] at hseg; simp at hseg
        | cons a as => simp [hd]
      have hlast2 : (link.data.drop k).getLast? = some '/' := by
        have := List.take_append_drop k link.data
        rw [← this] at hlast
        rwa [List.getLast?_append_of_ne_nil _ hne] at hlast
      have hmem : ('/' : Char) ∈ link.data.drop k := getLast?_mem_list hlast2
      have := List.all_eq_true.mp hseg.2 '/' hmem
      simp at this
    by_cases h1 : leads "https://github.com/".data link.data = true
    · rw [if_pos h1] at hre
      exact slashFree 19 hre
    · rw [if_neg h1] at hre
      by_cases h2 : leads "http://github.com/".data link.data = true
      · rw [if_pos h2] at hre
        exact slashFree 18 hre
      · rw [if_neg h2] at hre
        simp at hre
  · simpa using hre

/-- Witness for C9: the rejection clauses at the concrete links. -/
theorem github_scanner_filter_mismatch_wit :
    githubProfileRe "https://github.com/alice/" = false ∧
    githubProfileRe "https://www.github.com/bob" = false := by
  constructor
  · exact (github_scanner_filter_mismatch "https://github.com/alice/").1 (by decide)
  · exact ((github_scanner_filter_mismatch "x").2.1 "github.com/bob").1

/-- Concrete SKILLS document with sixteen collected items where the last
two differ only in letter case. -/
def c10cex : String :=
  "SKILLS\nKit B1 | B2 | B3 | B4 | B5 | B6 | B7 | B8 | B9 | Ca | Cb | Cc | Cd | Ce | Python | python"

/-- C10 counterexample: "Python" and "python" are both collected and both
survive the cleaning filter (so they differ only in case and are not
merged), yet "python" is absent from the returned list because the
15-item cap truncates it away. -/
theorem skills_case_dedup_cex :
    "Python" ∈ cleanedSkillsAll c10cex ∧ "python" ∈ cleanedSkillsAll c10cex ∧
    "python" ∉ extract_skills c10cex := by
  refine ⟨by decide, by decide, by decide⟩

/-- C10 (amended): deduplication is by exact string comparison — an item
is in the cleaned list iff it passes the per-item filter and is the
stripped form of some collected item, independently of letter case — so
any two cleaned items (in particular case variants) both appear in the
returned list provided the cleaned list does not exceed the 15-item cap. -/
theorem skills_case_dedup (text : String) (s₁ s₂ : String)
    (h₁ : s₁ ∈ cleanedSkillsAll text) (h₂ : s₂ ∈ cleanedSkillsAll text)
    (hlen : (cleanedSkillsAll text).length ≤ 15) :
    (s₁ ∈ extract_skills text ∧ s₂ ∈ extract_skills text) ∧
    (∀ x : String, x ∈ cleanedSkillsAll text ↔
      (baseOk x.data = true ∧ ∃ raw ∈ collectSkills text.data, pyStrip raw = x.data)) := by
  constructor
  · rw [extract_skills, List.take_of_length_le hlen]
    exact ⟨h₁, h₂⟩
  · intro x
    rw [cleanedSkillsAll, List.mem_map]
    constructor
    · rintro ⟨a, ha, rfl⟩
      rcases (mem_cleanLoop a _ _).mp ha with h | h
      · exact absurd h (List.not_mem_nil a)
      · exact h
    · rintro ⟨hb, raw, hraw, hstrip⟩
      refine ⟨x.data, ?_, rfl⟩
      exact (mem_cleanLoop x.data _ _).mpr (Or.inr ⟨hb, raw, hraw, hstrip⟩)

/-- Witness for C10 at a small concrete input where both case variants
fit under the cap. -/
theorem skills_case_dedup_wit :
    "Python" ∈ extract_skills "SKILLS\nLang Python | python" ∧
    "python" ∈ extract_skills "SKILLS\nLang Python | python" := by
  exact (skills_case_dedup "SKILLS\nLang Python | python" "Python" "python"
    (by decide) (by decide) (by decide)).1

/-- C8: every fallback extractor is a pure function of the input text, so
re-running it on the identical text yields identical output. -/
theorem extractors_deterministic (text : String) :
    extract_basic_info text = extract_basic_info text ∧
    extract_skills text = extract_skills text ∧
    extract_experience text = extract_experience text ∧
    extract_projects text = extract_projects text ∧
    extract_education text = extract_education text :=
  ⟨rfl, rfl, rfl, rfl, rfl⟩

end ResumeParser
